import Mathlib

/-!
Verification development for the playlist reconciliation program
(src/spotify-playlist-creator.py).

The Python source is shallowly embedded below.  Pure text manipulation
(lowercasing, stripping, the re.sub calls of clean_song_title,
normalize_artist_name and search_song) is embedded by an executable
backtracking regular-expression engine whose match preference order is the
same as Python's re module (leftmost position, then backtracking order with
greedy repetition).  The stateful functions (sort_playlist,
process_playlist, verify_playlist, search_song) are embedded as pure
functions that thread the remote playlist state explicitly and record the
remote calls they issue as an event trace.  Remote mutation primitives
(playlist_reorder_items, playlist_add_items,
playlist_remove_all_occurrences_of_items) are modelled by their documented
semantics.  All strings in scope are ASCII, so the ASCII lowercasing and
whitespace conventions used here agree with Python's.
-/

namespace PlaylistCreator

/-! # Basic Python text primitives (ASCII fragment) -/

/-- Python str.lower on an ASCII character. -/
def pyLowerChar (c : Char) : Char :=
  if 'A' ≤ c ∧ c ≤ 'Z' then Char.ofNat (c.toNat + 32) else c

/-- Python str.lower on a string (ASCII fragment). -/
def pyLowerStr (s : String) : String :=
  String.mk (s.data.map pyLowerChar)

/-- Python whitespace for str.strip and the regex class backslash-s
(ASCII fragment: space, tab, newline, carriage return, vertical tab,
form feed). -/
def pyIsSpace (c : Char) : Bool :=
  c == ' ' || c == '\t' || c == '\n' || c == '\r' || c == '\x0b' || c == '\x0c'

/-- Python regex class backslash-w (ASCII fragment): letters, digits,
underscore. -/
def pyIsWord (c : Char) : Bool :=
  c.isAlphanum || c == '_'

/-- Python str.strip on a character list. -/
def pyStrip (l : List Char) : List Char :=
  ((l.dropWhile pyIsSpace).reverse.dropWhile pyIsSpace).reverse

/-- Python s.split(sep, 1) followed by unpacking into exactly two
variables, as in: artist, title = [x.strip() for x in song.split('-', 1)].
Returns none when the separator is absent (the unpacking then raises
ValueError in the source). -/
def pySplitDash1 (s : String) : Option (String × String) :=
  go s.data []
where
  go : List Char → List Char → Option (String × String)
    | [], _ => none
    | c :: cs, acc =>
      if c = '-' then
        some (String.mk (pyStrip acc.reverse), String.mk (pyStrip cs))
      else
        go cs (c :: acc)

/-! # A small regular-expression engine

Only the constructs used by the source's patterns are supported: single
characters or character classes, concatenation, greedy option, greedy
Kleene star over a character class, and the end-of-line anchor.  Matching
enumerates candidate remainders in exactly Python's backtracking
preference order, so the head of the enumeration is the match Python
selects at a given start position. -/

/-- Regular expressions over characters.  starChr only repeats a single
character class, which is all the source's patterns need; it makes every
repetition consume at least one character per step. -/
inductive RE where
  | eps : RE
  | chrP (p : Char → Bool) : RE
  | cat (a b : RE) : RE
  | optR (a : RE) : RE
  | starChr (p : Char → Bool) : RE
  | eol : RE

/-- All suffixes remaining after a match of the expression at the head of
the input, in Python's backtracking preference order (greedy repetitions
try the longest expansion first). -/
def allMatches : RE → List Char → List (List Char)
  | .eps, s => [s]
  | .chrP _, [] => []
  | .chrP p, c :: cs => if p c then [cs] else []
  | .cat a b, s => (allMatches a s).flatMap (fun s' => allMatches b s')
  | .optR a, s => allMatches a s ++ [s]
  | .starChr p, s =>
      let n := (s.takeWhile p).length
      (List.range (n + 1)).map (fun i => s.drop (n - i))
  | .eol, s => if s = [] || s = ['\n'] then [s] else []

/-- The remainder after the match Python's engine selects at the head of
the input, if any. -/
def matchAt (r : RE) (s : List Char) : Option (List Char) :=
  (allMatches r s).head?

/-- One fuel-indexed step list for re.sub: scan left to right, replacing
each selected match and resuming after it.  The length guard skips
zero-width matches; none of the source's patterns can match the empty
string, so the guard never fires on them.  Fuel equal to the input length
suffices because every step consumes at least one character. -/
def subFuel (r : RE) (repl : List Char) : Nat → List Char → List Char
  | 0, s => s
  | _ + 1, [] => []
  | fuel + 1, c :: cs =>
    match matchAt r (c :: cs) with
    | some rem =>
      if rem.length < cs.length + 1 then repl ++ subFuel r repl fuel rem
      else c :: subFuel r repl fuel cs
    | none => c :: subFuel r repl fuel cs

/-- Python re.sub(pattern, repl, s): replace all non-overlapping matches,
scanning left to right. -/
def pySub (r : RE) (repl : List Char) (s : List Char) : List Char :=
  subFuel r repl s.length s

/-- Single literal character. -/
def chrC (c : Char) : RE :=
  .chrP (fun x => x == c)

/-- Concatenation of a list of expressions. -/
def seqRE (rs : List RE) : RE :=
  rs.foldr .cat .eps

/-- Literal string. -/
def litRE (s : String) : RE :=
  seqRE (s.data.map chrC)

/-- Regex class backslash-d (ASCII digits, as in the source's inputs). -/
def digitC : Char → Bool := Char.isDigit

/-- The class [^)] . -/
def notRParen : Char → Bool := fun c => !(c == ')')

/-! # clean_song_title -/

/-- Pattern (ver N) with optional space or dot. -/
def reVer : RE :=
  seqRE [chrC '(', litRE "ver", .optR (.chrP (fun c => pyIsSpace c || c == '.')),
    .chrP digitC, .starChr digitC, chrC ')']

/-- Pattern (version N). -/
def reVersionNum : RE :=
  seqRE [litRE "(version", .optR (.chrP pyIsSpace), .chrP digitC, .starChr digitC, chrC ')']

/-- Pattern (live). -/
def reLive : RE := litRE "(live)"

/-- Pattern: any parenthetical containing "version". -/
def reParenVersion : RE :=
  seqRE [chrC '(', .starChr notRParen, litRE "version", .starChr notRParen, chrC ')']

/-- Pattern (feat. ...): "(feat" then any one character (the regex dot)
then the rest of the parenthetical. -/
def reFeat : RE :=
  seqRE [litRE "(feat", .chrP (fun c => !(c == '\n')), .starChr notRParen, chrC ')']

/-- Pattern (remaster[ed][ N]). -/
def reRemasterParen : RE :=
  seqRE [litRE "(remaster", .optR (litRE "ed"), .starChr pyIsSpace, .starChr digitC, chrC ')']

/-- Pattern: any parenthetical containing "mix". -/
def reParenMix : RE :=
  seqRE [chrC '(', .starChr notRParen, litRE "mix", .starChr notRParen, chrC ')']

/-- Pattern: any parenthetical containing "edit". -/
def reParenEdit : RE :=
  seqRE [chrC '(', .starChr notRParen, litRE "edit", .starChr notRParen, chrC ')']

/-- Pattern - remaster[ed][ N]. -/
def reDashRemaster : RE :=
  seqRE [chrC '-', .starChr pyIsSpace, litRE "remaster", .optR (litRE "ed"),
    .starChr pyIsSpace, .starChr digitC]

/-- Pattern - single version. -/
def reDashSingle : RE :=
  seqRE [chrC '-', .starChr pyIsSpace, litRE "single", .starChr pyIsSpace, litRE "version"]

/-- The source's pattern list, in order. -/
def cleanPatterns : List RE :=
  [reVer, reVersionNum, reLive, reParenVersion, reFeat, reRemasterParen,
   reParenMix, reParenEdit, reDashRemaster, reDashSingle]

/-- clean_song_title: lowercase, apply each substitution pass in order,
strip.  The IGNORECASE flag of the source is inert because the input to
the substitutions is already lowercased and substitution only deletes
text. -/
def clean_song_title (title : String) : String :=
  String.mk (pyStrip (cleanPatterns.foldl (fun s r => pySub r [] s)
    (title.data.map pyLowerChar)))

/-! # normalize_artist_name -/

/-- The static alias table, in source order: canonical name paired with
its known textual variants. -/
def artistReplacements : List (String × List String) :=
  [("blink-182", ["blink 182", "blink182", "blink"]),
   ("pete townshend", ["pete townsend"]),
   ("sir mix-a-lot", ["sir mix a lot", "sir mixalot", "sir mix alot"]),
   ("misc soundtrack", ["lady gaga", "bradley cooper"]),
   ("a-ha", ["aha", "a ha"]),
   ("the b-52\x27s", ["b52s", "the b52s", "b 52s", "the b 52s"]),
   ("cutting crew", ["cutting crew"])]

/-- normalize_artist_name: lowercase and strip; exact or alias match
against the table; otherwise replace each character outside
backslash-w/backslash-s by a space, collapse whitespace runs, strip, and
try the table again, comparing against the lowercased canonical name;
return the cleaned string when no match is found. -/
def normalize_artist_name (artist0 : String) : String :=
  let artist := String.mk (pyStrip (artist0.data.map pyLowerChar))
  match artistReplacements.find? (fun e => e.2.contains artist || artist == e.1) with
  | some e => e.1
  | none =>
    let c1 := pySub (.chrP (fun c => !(pyIsWord c || pyIsSpace c))) [' '] artist.data
    let c2 := pySub (seqRE [.chrP pyIsSpace, .starChr pyIsSpace]) [' '] c1
    let cleaned := String.mk (pyStrip c2)
    match artistReplacements.find?
        (fun e => e.2.contains cleaned || cleaned == String.mk (e.1.data.map pyLowerChar)) with
    | some e => e.1
    | none => cleaned

/-! # Tracks and the remote collection

A remote track as the source reads it from each page item: its opaque id,
its name, and its first artist's name.  The remote playlist is the ordered
list of its tracks.  The source displays a track as "artist - name"
(the full_name field it builds for every snapshot entry). -/

structure Track where
  id : String
  name : String
  artist : String
  deriving DecidableEq

/-- The full_name string the source attaches to every snapshot entry. -/
def full_name (t : Track) : String :=
  t.artist ++ " - " ++ t.name

/-- List.take k l ++ [x] ++ List.drop k l, i.e. Python list.insert(k, x)
(inserting past the end appends). -/
def insertAt (k : Nat) (x : α) (l : List α) : List α :=
  l.take k ++ x :: l.drop k

/-- Removal of the element at an index, i.e. Python list.pop(i) ignoring
the returned element.  Out-of-range indices leave the list unchanged
(the source never pops out of range). -/
def eraseAt (k : Nat) (l : List α) : List α :=
  l.take k ++ l.drop (k + 1)

/-- Semantics of the remote move primitive
playlist_reorder_items(range_start, insert_before) with range length one:
the track at range_start is removed and re-inserted before the track that
was at insert_before in the pre-move list.  When range_start <
insert_before the removal shifts that target left by one. -/
def spotifyReorder (l : List Track) (rangeStart insertBefore : Nat) : List Track :=
  match l[rangeStart]? with
  | none => l
  | some t =>
    insertAt (if rangeStart < insertBefore then insertBefore - 1 else insertBefore)
      t (eraseAt rangeStart l)

/-- The local-state update sort_playlist performs after a move:
track = current_tracks.pop(current_pos); current_tracks.insert(sorted_count, track). -/
def popInsert (l : List Track) (c k : Nat) : List Track :=
  match l[c]? with
  | none => l
  | some t => insertAt k t (eraseAt c l)

/-- Semantics of playlist_remove_all_occurrences_of_items: every track
whose id occurs in the given id list is removed. -/
def removeAllOccurrences (ids : List String) (l : List Track) : List Track :=
  l.filter (fun t => decide (t.id ∉ ids))

/-- Remote calls the executor issues, plus the snapshot reads it
performs, recorded in order as an event trace. -/
inductive Ev where
  | read (snapshot : List Track) : Ev
  | moveCall (rangeStart rangeLength insertBefore : Nat) : Ev
  | addItems (ids : List String) : Ev
  | removeAll (ids : List String) : Ev
  deriving DecidableEq

/-- First index at which the predicate holds, transcribing the source's
enumerate loop with break. -/
def findFirst (p : α → Bool) : List α → Option Nat
  | [] => none
  | x :: xs => if p x then some 0 else (findFirst p xs).map (· + 1)

/-! # sort_playlist

State of sort_playlist: the authoritative remote playlist, the local
current_tracks list the function maintains by itself (it reads the remote
once, before the loop, and afterwards only simulates the moves locally),
the sorted_count cursor, the missing_songs accumulator, and the event
trace.  movedSongs is bookkeeping for the specification only: the desired
song that caused each issued move, in order. -/

structure SortSt where
  remote : List Track
  localT : List Track
  sorted : Nat
  missing : List String
  movedSongs : List String
  trace : List Ev
  deriving DecidableEq

/-- One iteration of sort_playlist's placement loop for the desired song
s: find the first local track whose full_name equals s exactly; if found
away from the cursor, issue the remote move, replay it on the local list,
and advance the cursor; if found at the cursor just advance; if absent,
record s as missing. -/
def sortStep (st : SortSt) (s : String) : SortSt :=
  match findFirst (fun t => decide (full_name t = s)) st.localT with
  | some c =>
    if c ≠ st.sorted then
      { st with
        remote := spotifyReorder st.remote c st.sorted
        localT := popInsert st.localT c st.sorted
        sorted := st.sorted + 1
        movedSongs := st.movedSongs ++ [s]
        trace := st.trace ++ [.moveCall c 1 st.sorted] }
    else
      { st with sorted := st.sorted + 1 }
  | none => { st with missing := st.missing ++ [s] }

/-- The placement loop of sort_playlist: one initial snapshot read, then
the per-position loop over the desired list. -/
def sortPhase1 (songs : List String) (r0 : List Track) : SortSt :=
  songs.foldl sortStep
    { remote := r0, localT := r0, sorted := 0, missing := [], movedSongs := [],
      trace := [.read r0] }

/-- The cleanup of sort_playlist: when the cursor is left of the end of
the locally simulated list, remove all occurrences of the ids of the
local tracks from the cursor onward, in one batched call against the
remote. -/
def sortCleanup (st : SortSt) : SortSt :=
  if st.sorted < st.localT.length then
    let ids := (st.localT.drop st.sorted).map Track.id
    { st with
      remote := removeAllOccurrences ids st.remote
      trace := st.trace ++ [.removeAll ids] }
  else st

/-- sort_playlist: placement loop followed by cleanup; the missing_songs
list is the source's return value. -/
def sort_playlist (songs : List String) (r0 : List Track) : SortSt :=
  sortCleanup (sortPhase1 songs r0)

/-! # process_playlist

process_playlist is the mutation routine the top-level flow actually
invokes.  Its state is the remote playlist and the event trace; unlike
sort_playlist it re-reads the remote at the start of every iteration and
works on that fresh snapshot.  The search collaborator (search_song
against the remote catalog) is abstracted as an oracle from the split
artist/title pair to the track that the returned id denotes, if any.
The placed field is bookkeeping for the specification only: it counts the
desired songs that were either found in the snapshot or added after a
successful search. -/

structure ProcSt where
  remote : List Track
  placed : Nat
  trace : List Ev
  deriving DecidableEq

/-- One iteration of process_playlist for desired position pos and song
s: read a fresh snapshot; move the first exact full_name match to pos if
it is elsewhere; otherwise split s, search, append the found track at the
end, re-read, and move it from the last position to pos.  A line without
a separator or a failed search leaves the playlist unchanged. -/
def procStep (oracle : String → String → Option Track) (st : ProcSt)
    (e : Nat × String) : ProcSt :=
  let pos := e.1
  let s := e.2
  let snap := st.remote
  let base : ProcSt := { st with trace := st.trace ++ [.read snap] }
  match findFirst (fun t => decide (full_name t = s)) snap with
  | some c =>
    if c ≠ pos then
      { base with
        remote := spotifyReorder snap c pos
        placed := st.placed + 1
        trace := base.trace ++ [.moveCall c 1 pos] }
    else
      { base with placed := st.placed + 1 }
  | none =>
    match pySplitDash1 s with
    | none => base
    | some (artist, title) =>
      match oracle artist title with
      | none => base
      | some tr =>
        let r1 := snap ++ [tr]
        let lastPos := r1.length - 1
        { base with
          remote := spotifyReorder r1 lastPos pos
          placed := st.placed + 1
          trace := base.trace ++ [.addItems [tr.id], .read r1, .moveCall lastPos 1 pos] }

/-- The per-position loop of process_playlist over the enumerated desired
list. -/
def procLoop (oracle : String → String → Option Track) (songs : List String)
    (r0 : List Track) : ProcSt :=
  (songs.enum).foldl (procStep oracle) { remote := r0, placed := 0, trace := [] }

/-- The cleanup of process_playlist: re-read the playlist and, when it
holds more tracks than the desired list, remove all occurrences of the
ids found at index at least the desired length, in one batched call. -/
def procCleanup (songs : List String) (st : ProcSt) : ProcSt :=
  let snap := st.remote
  let st' : ProcSt := { st with trace := st.trace ++ [.read snap] }
  if songs.length < snap.length then
    let ids := (snap.drop songs.length).map Track.id
    { st' with
      remote := removeAllOccurrences ids snap
      trace := st'.trace ++ [.removeAll ids] }
  else st'

/-- process_playlist: the per-position loop followed by the cleanup. -/
def process_playlist (oracle : String → String → Option Track)
    (songs : List String) (r0 : List Track) : ProcSt :=
  procCleanup songs (procLoop oracle songs r0)

/-! # verify_playlist -/

/-- One row of the mismatch report: 1-based position, the expected line
from the desired list, and the track found there rendered as
"artist - name". -/
structure Mismatch where
  position : Nat
  expected : String
  found : String
  deriving DecidableEq

/-- Outcome of verify_playlist: either the fail-fast length mismatch
report, or the mismatch rows collected by the element-by-element
comparison (the source returns True exactly when that list is empty). -/
inductive VerifyOutcome where
  | lengthMismatch (playlistLen songsLen : Nat) : VerifyOutcome
  | checked (mismatches : List Mismatch) : VerifyOutcome
  deriving DecidableEq

/-- The comparison of one position: split the expected line on the first
separator; a line without one raises ValueError, which the source catches
by recording a mismatch row; otherwise compare cleaned lowercased titles
and lowercased artists, recording a mismatch row unless both match. -/
def checkSong (pos : Nat) (tr : Track) (expectedSong : String) : Option Mismatch :=
  match pySplitDash1 expectedSong with
  | none => some ⟨pos, expectedSong, tr.artist ++ " - " ++ tr.name⟩
  | some (expectedArtist, expectedTitle) =>
    let titleMatch := pyLowerStr (clean_song_title tr.name)
      = pyLowerStr (clean_song_title expectedTitle)
    let artistMatch := pyLowerStr tr.artist = pyLowerStr expectedArtist
    if titleMatch ∧ artistMatch then none
    else some ⟨pos, expectedSong, tr.artist ++ " - " ++ tr.name⟩

/-- The element-by-element loop over zip(playlist_tracks, songs_list)
enumerated from 1, collecting mismatch rows. -/
def compareSongs : Nat → List Track → List String → List Mismatch
  | _, [], _ => []
  | _, _ :: _, [] => []
  | pos, tr :: ts, s :: ss =>
    (checkSong pos tr s).toList ++ compareSongs (pos + 1) ts ss

/-- verify_playlist: fail fast on a length mismatch, otherwise compare
element by element. -/
def verify_playlist (playlistTracks : List Track) (songs : List String) : VerifyOutcome :=
  if playlistTracks.length ≠ songs.length then
    .lengthMismatch playlistTracks.length songs.length
  else
    .checked (compareSongs 1 playlistTracks songs)

/-- The boolean the source returns: False on a length mismatch, and
otherwise True exactly when no mismatch row was collected. -/
def verifyPassed : VerifyOutcome → Bool
  | .lengthMismatch _ _ => false
  | .checked ms => ms.isEmpty

/-! # build_song_maps and determine_required_actions

Python dicts keyed by the normalized key string are embedded as
association lists in insertion order; assignment to an existing key
replaces the value in place, as in Python. -/

/-- A value of the desired-songs map: zero-based desired position, the
split artist and title, and the original line. -/
structure DesiredEntry where
  position : Nat
  artist : String
  title : String
  original : String
  deriving DecidableEq

/-- A value of the playlist-songs map: track id, zero-based snapshot
position, track name and artist name. -/
structure PlaylistEntry where
  id : String
  position : Nat
  name : String
  artist : String
  deriving DecidableEq

/-- Python dict assignment d[k] = v on an association list: replace the
value at an existing key in place, else append the binding. -/
def dictInsert (m : List (String × β)) (k : String) (v : β) : List (String × β) :=
  match m with
  | [] => [(k, v)]
  | (k', v') :: es => if k' = k then (k', v) :: es else (k', v') :: dictInsert es k v

/-- Python key-membership test and item lookup on an association list. -/
def dictGet (k : String) : List (String × β) → Option β
  | [] => none
  | (k', v) :: es => if k' = k then some v else dictGet k es

/-- The key expression of line 63 of the source, used for the desired
side: the lowercased split artist, a separator, and the cleaned title.
Line 82 builds the playlist-side key with the same expression applied to
the track's first artist name and track name. -/
def makeKeyUsed (artist title : String) : String :=
  pyLowerStr artist ++ "-" ++ clean_song_title title

/-- One iteration of the desired-songs loop of build_song_maps: split the
line, skip it without a separator (the ValueError branch), otherwise
store the entry under its key. -/
def desiredStep (m : List (String × DesiredEntry)) (e : Nat × String) :
    List (String × DesiredEntry) :=
  match pySplitDash1 e.2 with
  | none => m
  | some (artist, title) =>
    dictInsert m (makeKeyUsed artist title) ⟨e.1, artist, title, e.2⟩

/-- The desired-songs map of build_song_maps: iterate the desired list in
order, later entries overwriting earlier ones on key collisions. -/
def buildDesiredSongs (songs : List String) : List (String × DesiredEntry) :=
  (songs.enum).foldl desiredStep []

/-- One iteration of the playlist-songs loop of build_song_maps: store
the track under its key with its snapshot position. -/
def playlistStep (m : List (String × PlaylistEntry)) (e : Nat × Track) :
    List (String × PlaylistEntry) :=
  dictInsert m (makeKeyUsed e.2.artist e.2.name) ⟨e.2.id, e.1, e.2.name, e.2.artist⟩

/-- The playlist-songs map of build_song_maps: iterate the full paginated
snapshot in order. -/
def buildPlaylistSongs (tracks : List Track) : List (String × PlaylistEntry) :=
  (tracks.enum).foldl playlistStep []

/-- A move action of the diff: track id, current position, desired
position, track name. -/
structure MoveAction where
  id : String
  from_pos : Nat
  to_pos : Nat
  name : String
  deriving DecidableEq

/-- The action set determine_required_actions returns. -/
structure Actions where
  remove : List PlaylistEntry
  add : List DesiredEntry
  move : List MoveAction
  deriving DecidableEq

/-- determine_required_actions: a remove for each playlist key absent
from the desired map; an add for each desired key absent from the
playlist map; a move for each shared key whose positions differ.  The
source fills add and move in a single pass over the desired map; each
desired key contributes to at most one of the two, so the two passes
below produce the same lists in the same order. -/
def determine_required_actions (desired : List (String × DesiredEntry))
    (playlist : List (String × PlaylistEntry)) : Actions :=
  { remove := playlist.filterMap
      (fun p => if (dictGet p.1 desired).isNone then some p.2 else none)
    add := desired.filterMap
      (fun d => if (dictGet d.1 playlist).isNone then some d.2 else none)
    move := desired.filterMap
      (fun d =>
        match dictGet d.1 playlist with
        | none => none
        | some t =>
          if t.position ≠ d.2.position then
            some ⟨t.id, t.position, d.2.position, t.name⟩
          else none) }

/-! # execute_actions and the top-level mode selection -/

/-- Which mutation routine the top level runs. -/
inductive MutationRoutine where
  | processPlaylist : MutationRoutine
  | noRoutine : MutationRoutine
  deriving DecidableEq

/-- The keys of the actions dict built at line 99 of the source: the dict
literal always carries exactly these three keys, whatever the three lists
hold. -/
def actionsDictKeys (_ : Actions) : List String :=
  ["remove", "add", "move"]

/-- execute_actions: the source runs process_playlist when the actions
dict is truthy (a Python dict is truthy exactly when it has at least one
key) and otherwise does nothing. -/
def executeActionsRoutine (a : Actions) : MutationRoutine :=
  if (actionsDictKeys a).isEmpty then .noRoutine else .processPlaylist

/-- The top-level flow of main around the execute step: the user-selected
update mode (1, 2 or 3) is read beforehand but is not passed to
execute_actions (it is consulted again only for the final verification),
so the routine choice depends only on the actions dict. -/
def mainMutationRoutine (_updateMode : Nat) (a : Actions) : MutationRoutine :=
  executeActionsRoutine a

/-! # search_song

The remote search collaborator sp.search is abstracted as a service from
the query string to either a transient error or the (possibly empty)
candidate list; within one run of search_song the service is
deterministic.  search_song wraps its whole query ladder in one
try/except: a raised error restarts the entire ladder from the first
query, and when the last attempt raises, the whole search returns None. -/

/-- The title cleaning at the top of search_song: strip parentheticals
(with their leading whitespace), then strip everything from the first
dash (with its surrounding whitespace) to the end of the line. -/
def search_clean_title (title : String) : String :=
  let c1 := pySub (seqRE [.starChr pyIsSpace, chrC '(', .starChr notRParen, chrC ')'])
    [] title.data
  let c2 := pySub (seqRE [.starChr pyIsSpace, chrC '-', .starChr pyIsSpace,
    .starChr (fun c => !(c == '\n')), .eol]) [] c1
  String.mk c2

/-- The query ladder, in order of specificity, built from the cleaned
title and the artist. -/
def searchQueries (cleanTitle artist : String) : List String :=
  ["\"" ++ cleanTitle ++ "\" " ++ artist,
   cleanTitle ++ " " ++ artist,
   "track:\"" ++ cleanTitle ++ "\"",
   cleanTitle]

/-- Candidate selection on a non-empty result list: the first candidate
whose own cleaned title and artist match the input case-insensitively,
else the first candidate. -/
def pickCandidate (cleanTitle artist : String) (items : List Track) : Option String :=
  match items.find? (fun tr =>
      pyLowerStr (search_clean_title tr.name) == pyLowerStr cleanTitle
      && pyLowerStr tr.artist == pyLowerStr artist) with
  | some tr => some tr.id
  | none => (items.head?).map Track.id

/-- One pass over the query ladder: a raised error propagates out of the
pass; the first query with candidates resolves the search; a ladder with
no candidates at all resolves to None. -/
def ladderOnce (svc : String → Except Unit (List Track)) (cleanTitle artist : String) :
    List String → Except Unit (Option String)
  | [] => .ok none
  | q :: qs =>
    match svc q with
    | .error e => .error e
    | .ok [] => ladderOnce svc cleanTitle artist qs
    | .ok (t :: ts) => .ok (pickCandidate cleanTitle artist (t :: ts))

/-- The attempt loop of search_song: each attempt runs the whole ladder;
an error with attempts remaining restarts it, and an error on the last
attempt returns None.  Zero attempts (range(0) empty) also return None. -/
def searchAttempts (svc : String → Except Unit (List Track)) (cleanTitle artist : String)
    (queries : List String) : Nat → Option String
  | 0 => none
  | n + 1 =>
    match ladderOnce svc cleanTitle artist queries with
    | .ok r => r
    | .error _ => searchAttempts svc cleanTitle artist queries n

/-- search_song; its max_retries parameter defaults to three at every
call site of the source. -/
def search_song (svc : String → Except Unit (List Track)) (artist title : String)
    (maxRetries : Nat) : Option String :=
  let ct := search_clean_title title
  searchAttempts svc ct artist (searchQueries ct artist) maxRetries

/-! # Snapshot-freshness discipline over event traces

Formalization of "every positional move is based on a fresh snapshot": a
scan over the trace maintaining whether a read has happened since the
last mutating call (moves, adds and removals all invalidate positions).
A trace is fresh-disciplined when every move call is issued while that
flag holds. -/

/-- Whether a read has happened more recently than any mutating call,
after the given events, starting from the given flag. -/
def freshAfter : Bool → List Ev → Bool
  | f, [] => f
  | _, .read _ :: t => freshAfter true t
  | _, .moveCall .. :: t => freshAfter false t
  | _, .addItems _ :: t => freshAfter false t
  | _, .removeAll _ :: t => freshAfter false t

/-- Every move call in the trace happens while the snapshot is fresh,
i.e. a read is more recent than every earlier mutating call. -/
def freshMoves : Bool → List Ev → Bool
  | _, [] => true
  | _, .read _ :: t => freshMoves true t
  | f, .moveCall .. :: t => f && freshMoves false t
  | _, .addItems _ :: t => freshMoves false t
  | _, .removeAll _ :: t => freshMoves false t

/-! # The search behaviour claimed by the specification

Modelled from the claim's words for comparison with search_song: a
transient error is retried for that single query only, and after
exhausting its retries the query is treated as not-found and the ladder
continues with the next query. -/

/-- Per-query retry loop as the claim describes it: the query's result
list on success, not-found once the retries are exhausted. -/
def claimQueryAttempt (svc : String → Except Unit (List Track)) (q : String) :
    Nat → Option (List Track)
  | 0 => none
  | n + 1 =>
    match svc q with
    | .ok items => some items
    | .error _ => claimQueryAttempt svc q n

/-- The claim-side search: walk the ladder, retrying each query
individually and treating an exhausted query as not-found. -/
def claimSearch (svc : String → Except Unit (List Track)) (cleanTitle artist : String)
    (maxRetries : Nat) : List String → Option String
  | [] => none
  | q :: qs =>
    match claimQueryAttempt svc q maxRetries with
    | none => claimSearch svc cleanTitle artist maxRetries qs
    | some [] => claimSearch svc cleanTitle artist maxRetries qs
    | some (t :: ts) => pickCandidate cleanTitle artist (t :: ts)

/-! # Concrete sample data used by witnesses and counterexamples -/

/-- Sample track: full_name "a - x". -/
def trackA : Track := ⟨"idA", "x", "a"⟩

/-- Sample track: full_name "b - y". -/
def trackB : Track := ⟨"idB", "y", "b"⟩

/-- Sample track: full_name "c - z". -/
def trackC : Track := ⟨"idC", "z", "c"⟩

/-- Sample track: a remastered pressing of Bohemian Rhapsody. -/
def trackQ : Track := ⟨"id1", "Bohemian Rhapsody (Remastered 2011)", "Queen"⟩

/-- A search service for which the first ladder query has no candidates,
the second always raises a transient error, and the remaining queries
return one exact candidate. -/
def svcFlaky : String → Except Unit (List Track) := fun q =>
  if q = "\"Bohemian Rhapsody\" Queen" then .ok []
  else if q = "Bohemian Rhapsody Queen" then .error ()
  else .ok [⟨"id3", "Bohemian Rhapsody", "Queen"⟩]

/-- A search oracle that never finds anything. -/
def oracleNone : String → String → Option Track := fun _ _ => none

/-- A search service that always succeeds with one exact candidate. -/
def svcHit : String → Except Unit (List Track) := fun _ => .ok [⟨"idw", "w", "v"⟩]

/-- A search service that always raises a transient error. -/
def svcErr : String → Except Unit (List Track) := fun _ => .error ()

/-- A sample desired-songs map with two keys. -/
def sampleDesired : List (String × DesiredEntry) :=
  [("a-x", ⟨0, "a", "x", "a - x"⟩), ("b-y", ⟨1, "b", "y", "b - y"⟩)]

/-- A sample playlist-songs map sharing one key with sampleDesired at a
different position. -/
def samplePlaylist : List (String × PlaylistEntry) :=
  [("b-y", ⟨"idB", 0, "y", "b"⟩), ("c-z", ⟨"idC", 1, "z", "c"⟩)]

/-! # Sanity checks of the normalization layer -/

example : clean_song_title "Bohemian Rhapsody (Remastered 2011)" = "bohemian rhapsody" := by
  decide

example : clean_song_title "Song (Live)" = "song" := by
  decide

example : clean_song_title "Heart of Glass (Basildon Mix)" = "heart of glass" := by
  decide

example : normalize_artist_name "blink 182" = "blink-182" := by
  decide

example : normalize_artist_name "AC/DC" = "ac dc" := by
  decide

/-! # Helper lemmas -/

theorem findFirst_none {p : α → Bool} :
    ∀ {l : List α}, findFirst p l = none → ∀ x ∈ l, p x = false := by
  intro l
  induction l with
  | nil => intro _ x hx; cases hx
  | cons a as ih =>
    intro h x hx
    unfold findFirst at h
    by_cases hp : p a
    · simp [hp] at h
    · rcases List.mem_cons.mp hx with rfl | hx
      · simpa using hp
      · exact ih (by simpa [hp] using h) x hx

theorem findFirst_some {p : α → Bool} :
    ∀ {l : List α} {c : Nat}, findFirst p l = some c →
      ∃ x, l[c]? = some x ∧ p x = true ∧
        ∀ j y, j < c → l[j]? = some y → p y = false := by
  intro l
  induction l with
  | nil => intro c h; cases h
  | cons a as ih =>
    intro c h
    unfold findFirst at h
    by_cases hp : p a
    · simp [hp] at h
      subst h
      exact ⟨a, by simp, hp, by intro j y hj; omega⟩
    · simp [hp] at h
      rcases h with ⟨c', hc', rfl⟩
      rcases ih hc' with ⟨x, hx, hpx, hlt⟩
      refine ⟨x, by simpa using hx, hpx, ?_⟩
      intro j y hj hy
      cases j with
      | zero =>
        simp at hy
        simpa [← hy] using hp
      | succ j' => exact hlt j' y (by omega) (by simpa using hy)

/-! # C8: the Verifier fails fast on a length mismatch -/

/-- Claim C8: whenever the playlist snapshot and the desired list have
different lengths, verify_playlist returns the length-mismatch report and
fails, without producing any element-by-element comparison result. -/
theorem c8_length_fail_fast (playlistTracks : List Track) (songs : List String)
    (h : playlistTracks.length ≠ songs.length) :
    verify_playlist playlistTracks songs
        = .lengthMismatch playlistTracks.length songs.length
      ∧ verifyPassed (verify_playlist playlistTracks songs) = false
      ∧ ∀ ms, verify_playlist playlistTracks songs ≠ .checked ms := by
  refine ⟨by simp [verify_playlist, h], ?_, ?_⟩
  · simp [verify_playlist, h, verifyPassed]
  · intro ms hms
    simp [verify_playlist, h] at hms

/-- Witness for C8 at a concrete input with a two-track playlist and a
one-line desired list. -/
theorem c8_witness :
    verify_playlist [trackA, trackB] ["a - x"] = .lengthMismatch 2 1
      ∧ verifyPassed (verify_playlist [trackA, trackB] ["a - x"]) = false
      ∧ ∀ ms, verify_playlist [trackA, trackB] ["a - x"] ≠ .checked ms :=
  c8_length_fail_fast [trackA, trackB] ["a - x"] (by decide)

/-- Auxiliary: the split helper returns none on a separator-free suffix. -/
theorem pySplitDash1_go_none :
    ∀ (cs acc : List Char), '-' ∉ cs → pySplitDash1.go cs acc = none := by
  intro cs
  induction cs with
  | nil => intro acc _; rfl
  | cons c cs' ih =>
    intro acc h
    unfold pySplitDash1.go
    have hc : c ≠ '-' := fun hc => h (hc ▸ List.mem_cons_self c cs')
    simp only [if_neg hc]
    exact ih _ (fun hm => h (List.mem_cons_of_mem c hm))

/-- A desired line without a separator makes the split-and-unpack raise
ValueError, i.e. the embedded split returns none. -/
theorem pySplitDash1_eq_none {s : String} (h : '-' ∉ s.data) : pySplitDash1 s = none :=
  pySplitDash1_go_none s.data [] h

/-- A mismatch row produced at relative index i lands in the collected
mismatch list. -/
theorem mem_compareSongs :
    ∀ (ts : List Track) (ss : List String) (pos i : Nat) (m : Mismatch)
      (hi1 : i < ts.length) (hi2 : i < ss.length),
      checkSong (pos + i) ts[i] ss[i] = some m → m ∈ compareSongs pos ts ss := by
  intro ts
  induction ts with
  | nil => intro ss pos i m hi1 hi2 h; exact absurd hi1 (by simp)
  | cons t ts' ih =>
    intro ss pos i m hi1 hi2 h
    cases ss with
    | nil => exact absurd hi2 (by simp)
    | cons s ss' =>
      cases i with
      | zero =>
        simp only [List.getElem_cons_zero] at h
        rw [Nat.add_zero] at h
        simp only [compareSongs, List.mem_append]
        exact Or.inl (by simp [h])
      | succ j =>
        simp only [List.getElem_cons_succ] at h
        simp only [compareSongs, List.mem_append]
        refine Or.inr (ih ss' (pos + 1) j m (by simpa using hi1) (by simpa using hi2) ?_)
        have harith : pos + 1 + j = pos + (j + 1) := by omega
        rw [harith]
        exact h

/-! # C10: a separator-free expected line yields a mismatch row -/

/-- Claim C10: when the length check passes, an expected line without a
separator does not abort verification: it contributes a mismatch row
whose expected field is the raw line and whose found field is the track
at that position, and the comparison still completes with a full mismatch
list. -/
theorem c10_no_separator (playlistTracks : List Track) (songs : List String) (i : Nat)
    (hlen : playlistTracks.length = songs.length) (hi : i < songs.length)
    (hi' : i < playlistTracks.length)
    (hnodash : '-' ∉ songs[i].data) :
    ∃ ms, verify_playlist playlistTracks songs = .checked ms
      ∧ (⟨i + 1, songs[i],
          playlistTracks[i].artist ++ " - " ++ playlistTracks[i].name⟩ : Mismatch) ∈ ms := by
  refine ⟨compareSongs 1 playlistTracks songs, ?_, ?_⟩
  · simp [verify_playlist, hlen]
  · refine mem_compareSongs playlistTracks songs 1 i _ hi' hi ?_
    have h1 : (1 : Nat) + i = i + 1 := by omega
    rw [h1]
    simp [checkSong, pySplitDash1_eq_none hnodash]

/-- Witness for C10: a desired list whose first line has no separator. -/
theorem c10_witness :
    ∃ ms, verify_playlist [trackA, trackB] ["NoDashHere", "b - y"] = .checked ms
      ∧ (⟨1, "NoDashHere", "a - x"⟩ : Mismatch) ∈ ms := by
  have h := c10_no_separator [trackA, trackB] ["NoDashHere", "b - y"] 0
    (by decide) (by decide) (by decide) (by decide)
  simpa [trackA] using h

/-- Membership after a dict assignment comes from the old map or is the
new binding. -/
theorem mem_dictInsert {β : Type} :
    ∀ {m : List (String × β)} {k : String} {v : β} {p : String × β},
      p ∈ dictInsert m k v → p ∈ m ∨ p = (k, v) := by
  intro m
  induction m with
  | nil =>
    intro k v p h
    simp [dictInsert] at h
    exact Or.inr h
  | cons b es ih =>
    intro k v p h
    obtain ⟨k', v'⟩ := b
    by_cases hk : k' = k
    · subst hk
      simp only [dictInsert, if_pos rfl] at h
      rcases List.mem_cons.mp h with rfl | h
      · exact Or.inr rfl
      · exact Or.inl (List.mem_cons_of_mem _ h)
    · simp only [dictInsert, if_neg hk] at h
      rcases List.mem_cons.mp h with rfl | h
      · exact Or.inl (List.mem_cons_self _ _)
      · rcases ih h with h' | h'
        · exact Or.inl (List.mem_cons_of_mem _ h')
        · exact Or.inr h'

/-- Fold invariant for the desired-songs map: every key stored is the
lowercased-artist/cleaned-title expression of its own entry. -/
theorem foldl_desiredStep_shape :
    ∀ (l : List (Nat × String)) (m : List (String × DesiredEntry)),
      (∀ k e, (k, e) ∈ m → k = makeKeyUsed e.artist e.title) →
      ∀ k e, (k, e) ∈ l.foldl desiredStep m → k = makeKeyUsed e.artist e.title := by
  intro l
  induction l with
  | nil => intro m hm; exact hm
  | cons x l' ih =>
    intro m hm
    refine ih (desiredStep m x) ?_
    intro k e he
    unfold desiredStep at he
    cases hsp : pySplitDash1 x.2 with
    | none => exact hm k e (by rwa [hsp] at he)
    | some at_ =>
      rw [hsp] at he
      rcases mem_dictInsert he with h' | h'
      · exact hm k e h'
      · rcases Prod.mk.injEq .. ▸ h' with ⟨rfl, rfl⟩
        rfl

/-- Fold invariant for the playlist-songs map. -/
theorem foldl_playlistStep_shape :
    ∀ (l : List (Nat × Track)) (m : List (String × PlaylistEntry)),
      (∀ k t, (k, t) ∈ m → k = makeKeyUsed t.artist t.name) →
      ∀ k t, (k, t) ∈ l.foldl playlistStep m → k = makeKeyUsed t.artist t.name := by
  intro l
  induction l with
  | nil => intro m hm; exact hm
  | cons x l' ih =>
    intro m hm
    refine ih (playlistStep m x) ?_
    intro k t ht
    unfold playlistStep at ht
    rcases mem_dictInsert ht with h' | h'
    · exact hm k t h'
    · rcases Prod.mk.injEq .. ▸ h' with ⟨rfl, rfl⟩
      rfl

/-! # C4: the identity key actually used by build_song_maps -/

/-- Claim C4, amended: the key build_song_maps stores an entry under is
lowercase(artist) + "-" + clean_song_title(title), with the same
expression on the desired side (split artist and title) and the remote
side (track artist name and track name); artist alias normalization
(normalize_artist_name) is not part of the key on either side. -/
theorem c4_key_shape :
    (∀ (songs : List String) (k : String) (e : DesiredEntry),
        (k, e) ∈ buildDesiredSongs songs → k = makeKeyUsed e.artist e.title)
      ∧ (∀ (tracks : List Track) (k : String) (t : PlaylistEntry),
        (k, t) ∈ buildPlaylistSongs tracks → k = makeKeyUsed t.artist t.name) := by
  constructor
  · intro songs
    exact foldl_desiredStep_shape (songs.enum) [] (by intro k e h; cases h)
  · intro tracks
    exact foldl_playlistStep_shape (tracks.enum) [] (by intro k t h; cases h)

/-- Counterexample to C4 as stated: for the desired line
"blink 182 - Dammit" the map key is "blink 182-dammit", while the
normalize-artist-based key the claim describes is "blink-182-dammit"
(normalize_artist_name resolves the alias "blink 182" to "blink-182"),
so the key is not normalizeArtist(artist) + "-" + cleanTitle(title). -/
theorem c4_counterexample :
    buildDesiredSongs ["blink 182 - Dammit"]
        = [("blink 182-dammit", ⟨0, "blink 182", "Dammit", "blink 182 - Dammit"⟩)]
      ∧ normalize_artist_name "blink 182" ++ "-" ++ clean_song_title "Dammit"
        = "blink-182-dammit"
      ∧ ("blink 182-dammit" : String) ≠ "blink-182-dammit" := by
  refine ⟨by decide, by decide, by decide⟩

/-- Witness for C4 at a concrete desired line and a concrete remote
track. -/
theorem c4_witness :
    (("queen-bohemian rhapsody",
        (⟨0, "Queen", "Bohemian Rhapsody", "Queen - Bohemian Rhapsody"⟩ : DesiredEntry))
      ∈ buildDesiredSongs ["Queen - Bohemian Rhapsody"]
    ∧ "queen-bohemian rhapsody" = makeKeyUsed "Queen" "Bohemian Rhapsody")
    ∧ (("queen-bohemian rhapsody",
        (⟨"id1", 0, "Bohemian Rhapsody (Remastered 2011)", "Queen"⟩ : PlaylistEntry))
      ∈ buildPlaylistSongs [trackQ]
    ∧ "queen-bohemian rhapsody"
      = makeKeyUsed "Queen" "Bohemian Rhapsody (Remastered 2011)") :=
  ⟨⟨by decide, c4_key_shape.1 ["Queen - Bohemian Rhapsody"] "queen-bohemian rhapsody"
      ⟨0, "Queen", "Bohemian Rhapsody", "Queen - Bohemian Rhapsody"⟩ (by decide)⟩,
   ⟨by decide, c4_key_shape.2 [trackQ] "queen-bohemian rhapsody"
      ⟨"id1", 0, "Bohemian Rhapsody (Remastered 2011)", "Queen"⟩ (by decide)⟩⟩

/-- When the full ladder pass raises a transient error, every attempt
raises it again (the service is deterministic), so the whole search
returns None after the attempts are exhausted. -/
theorem searchAttempts_error (svc : String → Except Unit (List Track))
    (cleanTitle artist : String) (qs : List String)
    (h : ladderOnce svc cleanTitle artist qs = .error ()) :
    ∀ n, searchAttempts svc cleanTitle artist qs n = none := by
  intro n
  induction n with
  | zero => rfl
  | succ m ih =>
    rw [searchAttempts, h]
    exact ih

/-! # C7: the scope of the search retry loop -/

/-- Claim C7, amended: the try/except of search_song wraps the entire
query ladder, not a single query.  When one ladder pass completes without
a transient error its result is the search result; when a pass raises,
the next attempt restarts the whole ladder from the first query, and
after max_retries raising attempts the entire search returns None rather
than continuing with the next query. -/
theorem c7_retry_scope (svc : String → Except Unit (List Track)) (artist title : String) :
    (∀ (n : Nat) (r : Option String),
      ladderOnce svc (search_clean_title title) artist
          (searchQueries (search_clean_title title) artist) = .ok r →
        search_song svc artist title (n + 1) = r)
      ∧ (∀ n : Nat,
      ladderOnce svc (search_clean_title title) artist
          (searchQueries (search_clean_title title) artist) = .error () →
        search_song svc artist title n = none) := by
  constructor
  · intro n r h
    show searchAttempts svc (search_clean_title title) artist
      (searchQueries (search_clean_title title) artist) (n + 1) = r
    rw [searchAttempts, h]
  · intro n h
    exact searchAttempts_error svc (search_clean_title title) artist
      (searchQueries (search_clean_title title) artist) h n

/-- Counterexample to C7 as stated: under svcFlaky the second ladder
query always raises.  The claim's per-query retry would exhaust that
query, continue the ladder, and resolve the third query to id3 (as
claimSearch does), but search_song restarts the whole ladder on each
attempt and returns None after three raising attempts. -/
theorem c7_counterexample :
    search_song svcFlaky "Queen" "Bohemian Rhapsody" 3 = none
      ∧ claimSearch svcFlaky (search_clean_title "Bohemian Rhapsody") "Queen" 3
          (searchQueries (search_clean_title "Bohemian Rhapsody") "Queen")
        = some "id3"
      ∧ (some "id3" : Option String) ≠ none := by
  refine ⟨rfl, rfl, by decide⟩

/-- Witness for C7 at a service that always succeeds and one that always
raises. -/
theorem c7_witness :
    search_song svcHit "v" "w" 3 = some "idw"
      ∧ search_song svcErr "v" "w" 3 = none :=
  ⟨(c7_retry_scope svcHit "v" "w").1 2 (some "idw") rfl,
   (c7_retry_scope svcErr "v" "w").2 3 rfl⟩

/-- Removing all occurrences of the ids found from index n onward leaves
exactly the first n tracks, provided no id occurs twice in the list. -/
theorem removeAll_drop_of_nodup (l : List Track) (n : Nat)
    (h : (l.map Track.id).Nodup) :
    removeAllOccurrences ((l.drop n).map Track.id) l = l.take n := by
  have hsplit : l.map Track.id = (l.take n).map Track.id ++ (l.drop n).map Track.id := by
    rw [← List.map_append, List.take_append_drop]
  have hdisj := (List.nodup_append.mp (hsplit ▸ h)).2.2
  unfold removeAllOccurrences
  have hstep : l.filter (fun t => decide (t.id ∉ (l.drop n).map Track.id))
      = (l.take n ++ l.drop n).filter (fun t => decide (t.id ∉ (l.drop n).map Track.id)) := by
    rw [List.take_append_drop]
  rw [hstep, List.filter_append]
  have h1 : (l.take n).filter (fun t => decide (t.id ∉ (l.drop n).map Track.id))
      = l.take n := by
    apply List.filter_eq_self.mpr
    intro a ha
    simp only [decide_eq_true_eq]
    exact hdisj (List.mem_map_of_mem _ ha)
  have h2 : (l.drop n).filter (fun t => decide (t.id ∉ (l.drop n).map Track.id)) = [] := by
    apply List.filter_eq_nil_iff.mpr
    intro a ha
    simp only [decide_eq_true_eq, Decidable.not_not]
    exact List.mem_map_of_mem _ ha
  rw [h1, h2, List.append_nil]

/-! # C6: the cleanup threshold of the executor -/

/-- Claim C6, amended: after the per-position loop, process_playlist
re-reads the snapshot and, when it holds more tracks than the desired
list, removes in one batched remove-all-occurrences call exactly the
tracks at index at least the desired-list length (assuming no duplicate
track ids); the threshold is the desired-list length, not the count of
non-missing desired songs placed. -/
theorem c6_cleanup_threshold (oracle : String → String → Option Track)
    (songs : List String) (r0 : List Track)
    (hnd : ((procLoop oracle songs r0).remote.map Track.id).Nodup)
    (hlen : songs.length < (procLoop oracle songs r0).remote.length) :
    (process_playlist oracle songs r0).remote
        = (procLoop oracle songs r0).remote.take songs.length
      ∧ (process_playlist oracle songs r0).trace
        = (procLoop oracle songs r0).trace
          ++ [.read (procLoop oracle songs r0).remote,
              .removeAll (((procLoop oracle songs r0).remote.drop songs.length).map Track.id)] := by
  unfold process_playlist procCleanup
  rw [if_pos hlen]
  refine ⟨removeAll_drop_of_nodup _ _ hnd, by simp⟩

/-- Counterexample to C6 as stated: with a desired song that is neither
present nor found by search, nothing is placed (the placed count is 0),
yet the cleanup threshold is the desired-list length 1, so the extra
track at index 0 survives; the claim's threshold (count of placed songs,
here 0) would have removed it. -/
theorem c6_counterexample :
    (process_playlist oracleNone ["a - x"] [trackB]).placed = 0
      ∧ (process_playlist oracleNone ["a - x"] [trackB]).remote = [trackB]
      ∧ (process_playlist oracleNone ["a - x"] [trackB]).remote
        ≠ (procLoop oracleNone ["a - x"] [trackB]).remote.take
            (process_playlist oracleNone ["a - x"] [trackB]).placed := by
  refine ⟨rfl, rfl, by decide⟩

/-- Witness for C6 at a playlist with one matched track and one extra
track. -/
theorem c6_witness :
    (process_playlist oracleNone ["a - x"] [trackA, trackB]).remote
        = (procLoop oracleNone ["a - x"] [trackA, trackB]).remote.take 1
      ∧ (process_playlist oracleNone ["a - x"] [trackA, trackB]).trace
        = (procLoop oracleNone ["a - x"] [trackA, trackB]).trace
          ++ [.read (procLoop oracleNone ["a - x"] [trackA, trackB]).remote,
              .removeAll (((procLoop oracleNone ["a - x"] [trackA, trackB]).remote.drop 1).map
                Track.id)] :=
  c6_cleanup_threshold oracleNone ["a - x"] [trackA, trackB] (by decide) (by decide)

/-- Dict lookup misses exactly the keys outside the map. -/
theorem dictGet_eq_none_iff {β : Type} :
    ∀ {m : List (String × β)} {k : String},
      dictGet k m = none ↔ k ∉ m.map Prod.fst := by
  intro m
  induction m with
  | nil => intro k; simp [dictGet]
  | cons b es ih =>
    intro k
    by_cases hk : b.1 = k
    · simp [dictGet, hk]
    · simp only [dictGet, if_neg hk, List.map_cons, List.mem_cons]
      rw [ih]
      constructor
      · intro h hmem
        rcases hmem with hmem | hmem
        · exact hk hmem.symm
        · exact h hmem
      · intro h hmem
        exact h (Or.inr hmem)

/-- A successful dict lookup is a binding of the map. -/
theorem dictGet_some_mem {β : Type} :
    ∀ {m : List (String × β)} {k : String} {v : β},
      dictGet k m = some v → (k, v) ∈ m := by
  intro m
  induction m with
  | nil => intro k v h; cases h
  | cons b es ih =>
    intro k v h
    by_cases hk : b.1 = k
    · simp only [dictGet, if_pos hk] at h
      injection h with hv
      exact List.mem_cons.mpr (Or.inl (by rw [← hk, ← hv]))
    · simp only [dictGet, if_neg hk] at h
      exact List.mem_cons_of_mem _ (ih h)

/-- With no duplicate keys, every binding is found by lookup. -/
theorem mem_dictGet {β : Type} :
    ∀ {m : List (String × β)}, (m.map Prod.fst).Nodup →
      ∀ {k : String} {v : β}, (k, v) ∈ m → dictGet k m = some v := by
  intro m
  induction m with
  | nil => intro _ k v h; cases h
  | cons b es ih =>
    intro hnd k v h
    have hnd' := (List.nodup_cons.mp hnd)
    rcases List.mem_cons.mp h with rfl | h'
    · simp [dictGet]
    · by_cases hk : b.1 = k
      · exact absurd (hk ▸ List.mem_map_of_mem Prod.fst h') hnd'.1
      · simp only [dictGet, if_neg hk]
        exact ih hnd'.2 h'

/-! # C5: the Reconciler's action characterization -/

/-- Claim C5: relative to the two key-indexed maps, the Reconciler emits
a remove exactly for each playlist key absent from the desired map, an
add exactly for each desired key absent from the playlist map, and a
move record exactly for each shared key whose positions differ; and the
three generating conditions are pairwise exclusive in the key. -/
theorem c5_actions_characterization (desired : List (String × DesiredEntry))
    (playlist : List (String × PlaylistEntry))
    (hd : (desired.map Prod.fst).Nodup) (hp : (playlist.map Prod.fst).Nodup) :
    (∀ t : PlaylistEntry,
      t ∈ (determine_required_actions desired playlist).remove
        ↔ ∃ k, (k, t) ∈ playlist ∧ dictGet k desired = none)
    ∧ (∀ e : DesiredEntry,
      e ∈ (determine_required_actions desired playlist).add
        ↔ ∃ k, (k, e) ∈ desired ∧ dictGet k playlist = none)
    ∧ (∀ mv : MoveAction,
      mv ∈ (determine_required_actions desired playlist).move
        ↔ ∃ k e t, (k, e) ∈ desired ∧ (k, t) ∈ playlist ∧ t.position ≠ e.position
            ∧ mv = ⟨t.id, t.position, e.position, t.name⟩)
    ∧ (∀ k : String,
      ¬((k ∈ playlist.map Prod.fst ∧ dictGet k desired = none)
          ∧ (k ∈ desired.map Prod.fst ∧ dictGet k playlist = none))
      ∧ ¬((k ∈ playlist.map Prod.fst ∧ dictGet k desired = none)
          ∧ ∃ e t, (k, e) ∈ desired ∧ (k, t) ∈ playlist ∧ t.position ≠ e.position)
      ∧ ¬((k ∈ desired.map Prod.fst ∧ dictGet k playlist = none)
          ∧ ∃ e t, (k, e) ∈ desired ∧ (k, t) ∈ playlist ∧ t.position ≠ e.position)) := by
  refine ⟨?_, ?_, ?_, ?_⟩
  · intro t
    constructor
    · intro h
      rcases List.mem_filterMap.mp h with ⟨p, hp', hf⟩
      by_cases hn : (dictGet p.1 desired).isNone
      · simp only [if_pos hn] at hf
        injection hf with hv
        exact ⟨p.1, by rw [← hv]; exact hp', Option.isNone_iff_eq_none.mp hn⟩
      · simp [hn] at hf
    · rintro ⟨k, hkt, hnone⟩
      exact List.mem_filterMap.mpr ⟨(k, t), hkt, by simp [hnone]⟩
  · intro e
    constructor
    · intro h
      rcases List.mem_filterMap.mp h with ⟨p, hp', hf⟩
      by_cases hn : (dictGet p.1 playlist).isNone
      · simp only [if_pos hn] at hf
        injection hf with hv
        exact ⟨p.1, by rw [← hv]; exact hp', Option.isNone_iff_eq_none.mp hn⟩
      · simp [hn] at hf
    · rintro ⟨k, hke, hnone⟩
      exact List.mem_filterMap.mpr ⟨(k, e), hke, by simp [hnone]⟩
  · intro mv
    constructor
    · intro h
      rcases List.mem_filterMap.mp h with ⟨p, hp', hf⟩
      cases hg : dictGet p.1 playlist with
      | none => rw [hg] at hf; cases hf
      | some t =>
        rw [hg] at hf
        by_cases hne : t.position ≠ p.2.position
        · simp only [if_pos hne] at hf
          exact ⟨p.1, p.2, t, hp', dictGet_some_mem hg, hne, (Option.some.injEq .. ▸ hf).symm⟩
        · simp [if_neg hne] at hf
    · rintro ⟨k, e, t, hke, hkt, hne, rfl⟩
      refine List.mem_filterMap.mpr ⟨(k, e), hke, ?_⟩
      rw [mem_dictGet hp hkt]
      simp [hne]
  · intro k
    refine ⟨?_, ?_, ?_⟩
    · rintro ⟨⟨_, _⟩, ⟨hkd, _⟩⟩
      exact (dictGet_eq_none_iff.mp (by assumption)) hkd
    · rintro ⟨⟨_, hnone⟩, ⟨e, t, hke, _, _⟩⟩
      exact (dictGet_eq_none_iff.mp hnone) (List.mem_map_of_mem Prod.fst hke)
    · rintro ⟨⟨_, hnone⟩, ⟨e, t, _, hkt, _⟩⟩
      exact (dictGet_eq_none_iff.mp hnone) (List.mem_map_of_mem Prod.fst hkt)

/-- Witness for C5 at the sample maps: the extra playlist key c-z yields
a remove, the missing desired key a-x yields an add, and the shared key
b-y at differing positions yields a move record. -/
theorem c5_witness :
    (⟨"idC", 1, "z", "c"⟩ : PlaylistEntry)
        ∈ (determine_required_actions sampleDesired samplePlaylist).remove
      ∧ (⟨0, "a", "x", "a - x"⟩ : DesiredEntry)
        ∈ (determine_required_actions sampleDesired samplePlaylist).add
      ∧ (⟨"idB", 0, 1, "y"⟩ : MoveAction)
        ∈ (determine_required_actions sampleDesired samplePlaylist).move :=
  ⟨((c5_actions_characterization sampleDesired samplePlaylist (by decide) (by decide)).1
      ⟨"idC", 1, "z", "c"⟩).mpr ⟨"c-z", by decide, by decide⟩,
   ((c5_actions_characterization sampleDesired samplePlaylist (by decide) (by decide)).2.1
      ⟨0, "a", "x", "a - x"⟩).mpr ⟨"a-x", by decide, by decide⟩,
   ((c5_actions_characterization sampleDesired samplePlaylist (by decide) (by decide)).2.2.1
      ⟨"idB", 0, 1, "y"⟩).mpr
    ⟨"b-y", ⟨1, "b", "y", "b - y"⟩, ⟨"idB", 0, "y", "b"⟩, by decide, by decide, by decide, rfl⟩⟩

/-- The freshness scan distributes over trace concatenation. -/
theorem freshMoves_append :
    ∀ (t1 t2 : List Ev) (f : Bool),
      freshMoves f (t1 ++ t2) = (freshMoves f t1 && freshMoves (freshAfter f t1) t2) := by
  intro t1
  induction t1 with
  | nil => intro t2 f; simp [freshMoves, freshAfter]
  | cons e t ih =>
    intro t2 f
    cases e <;> simp [freshMoves, freshAfter, ih, Bool.and_assoc]

/-- Each iteration of process_playlist preserves the freshness
discipline: its trace chunk opens with a snapshot read, and its only
move calls come right after a read (the not-found branch re-reads after
the append and before the move). -/
theorem procStep_fresh (oracle : String → String → Option Track) (st : ProcSt)
    (e : Nat × String) (h : freshMoves true st.trace = true) :
    freshMoves true (procStep oracle st e).trace = true := by
  unfold procStep
  dsimp only
  cases hf : findFirst (fun t => decide (full_name t = e.2)) st.remote with
  | some c =>
    by_cases hc : c = e.1 <;>
      simp [hc, freshMoves_append, freshMoves, freshAfter, h]
  | none =>
    cases hsp : pySplitDash1 e.2 with
    | none =>
      simp [freshMoves_append, freshMoves, freshAfter, h]
    | some at_ =>
      obtain ⟨a1, a2⟩ := at_
      cases ho : oracle a1 a2 with
      | none => simp [ho, freshMoves_append, freshMoves, freshAfter, h]
      | some tr => simp [ho, freshMoves_append, freshMoves, freshAfter, h]

/-- The loop of process_playlist preserves the freshness discipline. -/
theorem foldl_procStep_fresh (oracle : String → String → Option Track) :
    ∀ (l : List (Nat × String)) (st : ProcSt), freshMoves true st.trace = true →
      freshMoves true ((l.foldl (procStep oracle) st)).trace = true := by
  intro l
  induction l with
  | nil => intro st h; exact h
  | cons x l' ih => intro st h; exact ih _ (procStep_fresh oracle st x h)

/-- The cleanup of process_playlist preserves the freshness discipline
(it issues no move call). -/
theorem procCleanup_fresh (songs : List String) (st : ProcSt)
    (h : freshMoves true st.trace = true) :
    freshMoves true (procCleanup songs st).trace = true := by
  unfold procCleanup
  by_cases hlen : songs.length < st.remote.length <;>
    simp [hlen, freshMoves_append, freshMoves, freshAfter, h]

/-! # C3: fresh snapshots before positional moves -/

/-- Claim C3, amended: process_playlist, the executor the top level
invokes, re-reads the remote collection at the start of every iteration
and issues every positional move while that snapshot is fresh, i.e. with
a read more recent than every earlier mutating call; sort_playlist
instead reads the collection once before its loop and bases later moves
on locally simulated state (see the counterexample). -/
theorem c3_fresh_moves (oracle : String → String → Option Track)
    (songs : List String) (r0 : List Track) :
    freshMoves true (process_playlist oracle songs r0).trace = true := by
  unfold process_playlist procLoop
  exact procCleanup_fresh songs _ (foldl_procStep_fresh oracle (songs.enum) _ rfl)

/-- Counterexample to C3 as stated: sort_playlist's trace on a
three-track playlist contains one initial read followed by two move
calls and a batched removal; the second move is issued with no read
after the first mutation, so it is based on locally simulated state, and
the freshness discipline the claim asserts fails. -/
theorem c3_counterexample :
    (sort_playlist ["a - x", "b - y"] [trackC, trackB, trackA]).trace
        = [.read [trackC, trackB, trackA], .moveCall 2 1 0, .moveCall 2 1 1,
           .removeAll ["idC"]]
      ∧ freshMoves true (sort_playlist ["a - x", "b - y"] [trackC, trackB, trackA]).trace
        = false := by
  refine ⟨by decide, by decide⟩

/-- The placement loop processes the desired list one song at a time:
extending the desired list by one song applies one more step to the
state reached before it. -/
theorem sortPhase1_append (songs : List String) (s : String) (r0 : List Track) :
    sortPhase1 (songs ++ [s]) r0 = sortStep (sortPhase1 songs r0) s := by
  unfold sortPhase1
  rw [List.foldl_append]
  rfl

/-! # C2: the behaviour of one placement step -/

/-- Claim C2, amended: at every target position, the executor searches
its locally maintained snapshot for the first track whose full name
string (artist - name) equals the desired line exactly — not for a
NormalizedKey match.  Found away from the cursor, it issues
move(from = c, count = 1, insertBefore = sorted), replays the move
locally and advances the cursor; found at the cursor it only advances
the cursor; not found, it records the line as missing and leaves the
cursor unchanged. -/
theorem c2_step_behavior (songs : List String) (s : String) (r0 : List Track) :
    (findFirst (fun t => decide (full_name t = s)) (sortPhase1 songs r0).localT = none →
      sortPhase1 (songs ++ [s]) r0
        = { sortPhase1 songs r0 with
            missing := (sortPhase1 songs r0).missing ++ [s] })
    ∧ (∀ c, findFirst (fun t => decide (full_name t = s)) (sortPhase1 songs r0).localT = some c →
      c ≠ (sortPhase1 songs r0).sorted →
      sortPhase1 (songs ++ [s]) r0
        = { sortPhase1 songs r0 with
            remote := spotifyReorder (sortPhase1 songs r0).remote c (sortPhase1 songs r0).sorted
            localT := popInsert (sortPhase1 songs r0).localT c (sortPhase1 songs r0).sorted
            sorted := (sortPhase1 songs r0).sorted + 1
            movedSongs := (sortPhase1 songs r0).movedSongs ++ [s]
            trace := (sortPhase1 songs r0).trace
              ++ [.moveCall c 1 (sortPhase1 songs r0).sorted] })
    ∧ (∀ c, findFirst (fun t => decide (full_name t = s)) (sortPhase1 songs r0).localT = some c →
      c = (sortPhase1 songs r0).sorted →
      sortPhase1 (songs ++ [s]) r0
        = { sortPhase1 songs r0 with sorted := (sortPhase1 songs r0).sorted + 1 }) := by
  refine ⟨?_, ?_, ?_⟩
  · intro h
    rw [sortPhase1_append]
    unfold sortStep
    rw [h]
  · intro c h hc
    rw [sortPhase1_append]
    unfold sortStep
    rw [h]
    simp [hc]
  · intro c h hc
    rw [sortPhase1_append]
    unfold sortStep
    rw [h]
    simp [hc]

/-- Counterexample to C2 as stated: the desired line and the remote
track share the same normalized key (the remaster annotation is cleaned
away), and the key-matching track sits at the cursor, so the claimed
behaviour would advance the cursor without recording anything missing;
the code instead records the line as missing, advances nothing and
issues no call, because its match predicate is exact full-name string
equality. -/
theorem c2_counterexample :
    makeKeyUsed "Queen" "Bohemian Rhapsody" = makeKeyUsed trackQ.artist trackQ.name
      ∧ pySplitDash1 "Queen - Bohemian Rhapsody" = some ("Queen", "Bohemian Rhapsody")
      ∧ full_name trackQ ≠ "Queen - Bohemian Rhapsody"
      ∧ (sortPhase1 ["Queen - Bohemian Rhapsody"] [trackQ]).missing
        = ["Queen - Bohemian Rhapsody"]
      ∧ (sortPhase1 ["Queen - Bohemian Rhapsody"] [trackQ]).sorted = 0
      ∧ (sortPhase1 ["Queen - Bohemian Rhapsody"] [trackQ]).trace = [.read [trackQ]] := by
  refine ⟨by decide, by decide, by decide, by decide, by decide, by decide⟩

/-- Witness for C2: a found-elsewhere step (the desired song sits at
index 2, the cursor at 1) and a not-found step on the same prefix
state. -/
theorem c2_witness :
    (sortPhase1 (["a - x"] ++ ["b - y"]) [trackC, trackB, trackA]
      = { sortPhase1 ["a - x"] [trackC, trackB, trackA] with
          remote := spotifyReorder (sortPhase1 ["a - x"] [trackC, trackB, trackA]).remote 2
            (sortPhase1 ["a - x"] [trackC, trackB, trackA]).sorted
          localT := popInsert (sortPhase1 ["a - x"] [trackC, trackB, trackA]).localT 2
            (sortPhase1 ["a - x"] [trackC, trackB, trackA]).sorted
          sorted := (sortPhase1 ["a - x"] [trackC, trackB, trackA]).sorted + 1
          movedSongs := (sortPhase1 ["a - x"] [trackC, trackB, trackA]).movedSongs ++ ["b - y"]
          trace := (sortPhase1 ["a - x"] [trackC, trackB, trackA]).trace
            ++ [.moveCall 2 1 (sortPhase1 ["a - x"] [trackC, trackB, trackA]).sorted] })
    ∧ (sortPhase1 (["a - x"] ++ ["q - q"]) [trackC, trackB, trackA]
      = { sortPhase1 ["a - x"] [trackC, trackB, trackA] with
          missing := (sortPhase1 ["a - x"] [trackC, trackB, trackA]).missing ++ ["q - q"] }) :=
  ⟨(c2_step_behavior ["a - x"] "b - y" [trackC, trackB, trackA]).2.1 2 (by decide) (by decide),
   (c2_step_behavior ["a - x"] "q - q" [trackC, trackB, trackA]).1 (by decide)⟩

/-- Inserting anywhere is a permutation of consing. -/
theorem insertAt_perm (k : Nat) (x : α) (l : List α) : (insertAt k x l).Perm (x :: l) := by
  unfold insertAt
  have h : (l.take k ++ x :: l.drop k).Perm (x :: (l.take k ++ l.drop k)) := List.perm_middle
  rwa [List.take_append_drop] at h

/-- Consing the removed element onto the erasure restores the list up to
permutation. -/
theorem eraseAt_cons_perm {l : List α} {c : Nat} {x : α} (h : l[c]? = some x) :
    (x :: eraseAt c l).Perm l := by
  obtain ⟨hc, hx⟩ := List.getElem?_eq_some.mp h
  unfold eraseAt
  calc (x :: (l.take c ++ l.drop (c + 1))).Perm (l.take c ++ x :: l.drop (c + 1)) :=
        List.perm_middle.symm
    _ = l.take c ++ l.drop c := by rw [List.drop_eq_getElem_cons hc, hx]
    _ = l := List.take_append_drop c l

/-- The pop-and-insert local update permutes the list. -/
theorem popInsert_perm (l : List Track) (c k : Nat) : (popInsert l c k).Perm l := by
  unfold popInsert
  cases h : l[c]? with
  | none => exact List.Perm.refl l
  | some x => exact (insertAt_perm k x (eraseAt c l)).trans (eraseAt_cons_perm h)

/-- Erasing at an index within the list shortens it by one. -/
theorem eraseAt_length {l : List α} {c : Nat} (hc : c < l.length) :
    (eraseAt c l).length = l.length - 1 := by
  unfold eraseAt
  simp only [List.length_append, List.length_take, List.length_drop]
  omega

/-- The erasure beyond the cursor leaves the prefix before it intact. -/
theorem eraseAt_take {l : List α} {c k : Nat} (hk : k ≤ c) (hc : c < l.length) :
    (eraseAt c l).take k = l.take k := by
  unfold eraseAt
  rw [List.take_append_eq_append_take, List.take_take]
  have h1 : min k c = k := by omega
  have h2 : k - (l.take c).length = 0 := by
    simp only [List.length_take]
    omega
  rw [h1, h2]
  simp

/-- After popping at c and inserting at k with k at most c, the first
k + 1 elements are the old prefix followed by the moved element. -/
theorem popInsert_take {l : List Track} {c k : Nat} {x : Track}
    (h : l[c]? = some x) (hk : k ≤ c) :
    (popInsert l c k).take (k + 1) = l.take k ++ [x] := by
  obtain ⟨hc, hx⟩ := List.getElem?_eq_some.mp h
  unfold popInsert
  rw [h]
  unfold insertAt
  have hlen : ((eraseAt c l).take k).length = k := by
    rw [List.length_take, eraseAt_length hc]
    omega
  rw [List.take_append_eq_append_take, hlen]
  have h1 : k + 1 - k = 1 := by omega
  rw [h1, List.take_take]
  have h2 : min (k + 1) k = k := by omega
  rw [h2, eraseAt_take hk hc]
  simp

/-- When the source index is not left of the insertion index, the remote
move primitive and the local pop-and-insert replay produce the same
list; sort_playlist only moves tracks from at or beyond the cursor, so
its local simulation stays faithful there. -/
theorem spotifyReorder_eq_popInsert (l : List Track) (c k : Nat) (h : ¬c < k) :
    spotifyReorder l c k = popInsert l c k := by
  unfold spotifyReorder popInsert
  cases l[c]? with
  | none => rfl
  | some x => rw [if_neg h]

/-- Invariant of the placement loop: with no processed desired line
repeated, the locally simulated list stays equal to the remote one and
permutes the initial snapshot, and the prefix below the cursor lists
exactly the processed desired lines present in the snapshot, in order;
the moved songs are a sublist of the processed lines. -/
theorem sortPhase1_invariant (r0 : List Track) :
    ∀ (rest processed : List String) (st : SortSt),
      st.remote = st.localT →
      st.localT.Perm r0 →
      st.sorted ≤ st.localT.length →
      (st.localT.take st.sorted).map full_name
        = processed.filter (fun s => decide (s ∈ r0.map full_name)) →
      st.movedSongs.Sublist processed →
      (∀ s ∈ rest, s ∉ processed) →
      rest.Nodup →
      ((rest.foldl sortStep st).remote = (rest.foldl sortStep st).localT
        ∧ (rest.foldl sortStep st).localT.Perm r0
        ∧ (rest.foldl sortStep st).sorted ≤ (rest.foldl sortStep st).localT.length
        ∧ ((rest.foldl sortStep st).localT.take (rest.foldl sortStep st).sorted).map full_name
          = (processed ++ rest).filter (fun s => decide (s ∈ r0.map full_name))
        ∧ (rest.foldl sortStep st).movedSongs.Sublist (processed ++ rest)) := by
  intro rest
  induction rest with
  | nil =>
    intro processed st h1 h2 h3 h4 h5 _ _
    simp only [List.foldl_nil, List.append_nil]
    exact ⟨h1, h2, h3, h4, h5⟩
  | cons s rest' ih =>
    intro processed st h1 h2 h3 h4 h5 hdisj hnd
    have hs_not : s ∉ processed := hdisj s (List.mem_cons_self s rest')
    -- no track below the cursor carries the current desired line
    have hpre : ∀ x ∈ st.localT.take st.sorted, full_name x ≠ s := by
      intro x hx heq
      have hmem : full_name x ∈ (st.localT.take st.sorted).map full_name :=
        List.mem_map_of_mem full_name hx
      rw [h4] at hmem
      exact hs_not (heq ▸ (List.mem_filter.mp hmem).1)
    have hdisj' : ∀ u ∈ rest', u ∉ processed ++ [s] := by
      intro u hu
      rw [List.mem_append]
      rintro (hup | hus)
      · exact hdisj u (List.mem_cons_of_mem s hu) hup
      · rcases List.mem_singleton.mp hus with rfl
        exact (List.nodup_cons.mp hnd).1 hu
    have hnd' : rest'.Nodup := (List.nodup_cons.mp hnd).2
    have happ : processed ++ s :: rest' = (processed ++ [s]) ++ rest' := by simp
    rw [List.foldl_cons, happ]
    -- analyse one step
    cases hfind : findFirst (fun t => decide (full_name t = s)) st.localT with
    | none =>
      have hnotin : s ∉ r0.map full_name := by
        intro hmem
        have hmem' : s ∈ st.localT.map full_name :=
          ((h2.map full_name).mem_iff).mpr hmem
        rcases List.mem_map.mp hmem' with ⟨x, hx, hxe⟩
        have := findFirst_none hfind x hx
        rw [hxe] at this
        simp at this
      have hst : sortStep st s = { st with missing := st.missing ++ [s] } := by
        unfold sortStep
        rw [hfind]
      rw [hst]
      have hqs : decide (s ∈ r0.map full_name) = false := by
        simp only [decide_eq_false_iff_not]
        exact hnotin
      refine ih (processed ++ [s]) _ h1 h2 h3 ?_ ?_ hdisj' hnd'
      · rw [h4, List.filter_append, List.filter_singleton]
        simp only [hqs]
        simp
      · exact h5.trans (List.sublist_append_left processed [s])
    | some c =>
      rcases findFirst_some hfind with ⟨x, hx, hpx, _⟩
      have hxs : full_name x = s := of_decide_eq_true hpx
      obtain ⟨hcl, hxe⟩ := List.getElem?_eq_some.mp hx
      have hkc : st.sorted ≤ c := by
        by_contra hlt
        push_neg at hlt
        have hxin : x ∈ st.localT.take st.sorted := by
          have h' : (st.localT.take st.sorted)[c]? = some x := by
            rw [List.getElem?_take, if_pos hlt]
            exact hx
          exact List.getElem?_mem h'
        exact hpre x hxin hxs
      have hsin : s ∈ r0.map full_name := by
        have hmm : full_name x ∈ st.localT.map full_name :=
          List.mem_map_of_mem full_name (hxe ▸ List.getElem_mem hcl)
        exact hxs ▸ ((h2.map full_name).mem_iff).mp hmm
      have hqs : decide (s ∈ r0.map full_name) = true := by simpa using hsin
      have hfilter : (processed ++ [s]).filter (fun u => decide (u ∈ r0.map full_name))
          = processed.filter (fun u => decide (u ∈ r0.map full_name)) ++ [s] := by
        rw [List.filter_append, List.filter_singleton]
        simp only [hqs]
        simp
      by_cases hc : c = st.sorted
      · have hst : sortStep st s = { st with sorted := st.sorted + 1 } := by
          unfold sortStep
          rw [hfind]
          simp [hc]
        rw [hst]
        refine ih (processed ++ [s]) _ h1 h2 (by show st.sorted + 1 ≤ st.localT.length; omega)
          ?_ ?_ hdisj' hnd'
        · rw [List.take_succ, hfilter, ← h4]
          subst hc
          rw [hx]
          simp [hxs]
        · exact h5.trans (List.sublist_append_left processed [s])
      · have hst : sortStep st s = { st with
            remote := spotifyReorder st.remote c st.sorted
            localT := popInsert st.localT c st.sorted
            sorted := st.sorted + 1
            movedSongs := st.movedSongs ++ [s]
            trace := st.trace ++ [.moveCall c 1 st.sorted] } := by
          unfold sortStep
          rw [hfind]
          simp [hc]
        rw [hst]
        have hperm : (popInsert st.localT c st.sorted).Perm r0 :=
          (popInsert_perm st.localT c st.sorted).trans h2
        refine ih (processed ++ [s]) _ ?_ hperm ?_ ?_ ?_ hdisj' hnd'
        · rw [h1]
          exact spotifyReorder_eq_popInsert st.localT c st.sorted (by omega)
        · show st.sorted + 1 ≤ (popInsert st.localT c st.sorted).length
          have := (popInsert_perm st.localT c st.sorted).length_eq
          omega
        · rw [popInsert_take hx hkc, List.map_append, h4, hfilter]
          simp [hxs]
        · exact h5.append (List.Sublist.refl [s])

/-! # C1: what the placement pass guarantees -/

/-- Claim C1, amended: for every desired list WITHOUT repeated lines and
every initial remote collection, after the placement pass the prefix
below the cursor of the remote collection lists, in desired order,
exactly the desired lines present somewhere in the initial collection
(by exact full-name match), and each desired line causes at most one
move call. -/
theorem c1_placement_pass (songs : List String) (r0 : List Track) (hnd : songs.Nodup) :
    ((sortPhase1 songs r0).remote.take (sortPhase1 songs r0).sorted).map full_name
        = songs.filter (fun s => decide (s ∈ r0.map full_name))
      ∧ (sortPhase1 songs r0).movedSongs.Sublist songs
      ∧ (sortPhase1 songs r0).movedSongs.Nodup := by
  have h := sortPhase1_invariant r0 songs []
    { remote := r0, localT := r0, sorted := 0, missing := [], movedSongs := [],
      trace := [.read r0] }
    rfl (List.Perm.refl r0) (Nat.zero_le r0.length) (by simp) (List.nil_sublist [])
    (fun s _ => List.not_mem_nil s) hnd
  have e : List.foldl sortStep
      { remote := r0, localT := r0, sorted := 0, missing := [], movedSongs := [],
        trace := [.read r0] } songs = sortPhase1 songs r0 := rfl
  obtain ⟨h1, _, _, h4, h5⟩ := h
  rw [e] at h1 h4 h5
  have hsub : (sortPhase1 songs r0).movedSongs.Sublist songs := by simpa using h5
  refine ⟨?_, hsub, hsub.nodup hnd⟩
  rw [h1, h4]
  simp

/-- Counterexample to C1 as stated: with the repeated desired line a - x
against the two-track collection, the pass moves the same song twice
and ends with cursor 2, but the remote prefix below the cursor is
a - x, b - y rather than the claimed a - x, a - x. -/
theorem c1_counterexample :
    ¬(((sortPhase1 ["a - x", "a - x"] [trackB, trackA]).remote.take
          (sortPhase1 ["a - x", "a - x"] [trackB, trackA]).sorted).map full_name
        = ["a - x", "a - x"].filter
            (fun s => decide (s ∈ ([trackB, trackA] : List Track).map full_name)))
      ∧ ¬(sortPhase1 ["a - x", "a - x"] [trackB, trackA]).movedSongs.Nodup := by
  refine ⟨by decide, by decide⟩

/-- Witness for C1: two placeable desired lines (one needing a move) and
one missing line. -/
theorem c1_witness :
    ((sortPhase1 ["a - x", "b - y", "q - q"] [trackB, trackA]).remote.take
          (sortPhase1 ["a - x", "b - y", "q - q"] [trackB, trackA]).sorted).map full_name
        = ["a - x", "b - y", "q - q"].filter
            (fun s => decide (s ∈ ([trackB, trackA] : List Track).map full_name))
      ∧ (sortPhase1 ["a - x", "b - y", "q - q"] [trackB, trackA]).movedSongs.Sublist
          ["a - x", "b - y", "q - q"]
      ∧ (sortPhase1 ["a - x", "b - y", "q - q"] [trackB, trackA]).movedSongs.Nodup :=
  c1_placement_pass ["a - x", "b - y", "q - q"] [trackB, trackA] (by decide)

/-! # C9: the update mode never changes the mutation routine -/

/-- Claim C9: for every action set and every user-selected update mode,
the top-level execute step runs process_playlist; the actions dict always
carries its three keys, hence is always truthy, so the mode value never
changes the routine choice. -/
theorem c9_mode_independent (updateMode : Nat) (a : Actions) :
    mainMutationRoutine updateMode a = .processPlaylist
      ∧ executeActionsRoutine a = .processPlaylist
      ∧ actionsDictKeys a ≠ [] := by
  refine ⟨rfl, rfl, by simp [actionsDictKeys]⟩

end PlaylistCreator
